import Mathlib

/-!
Shallow embedding of the game process lifecycle controller of `ys-compass`
(`src-tauri/src/app/game.rs`, `src-tauri/src/system.rs`, `src-tauri/src/utils.rs`).

Stateful Windows API code is modelled as trace-producing functions: each
embedded function returns the list of externally visible actions it performs
together with its `Result` value.  OS behaviour that the code merely observes
(whether a Win32 call succeeds, whether a file exists, poll outcomes) is an
explicit oracle parameter.
-/

namespace YsCompass

/-- Externally visible actions performed by the launch path of
`src-tauri/src/app/game.rs`. -/
inductive Event where
  /-- The target process was created and its handle pair obtained
  (successful return of `open_game`). -/
  | openGame : Event
  /-- `NtSuspendProcess` was invoked on the target (body of `suspend`). -/
  | suspend : Event
  /-- `NtResumeProcess` was invoked on the target (body of `resume`). -/
  | resume : Event
  /-- The per-tool loop of `launch_game` started processing the named tool. -/
  | toolAttempt : String → Event
  /-- `VirtualAllocEx` allocated path memory in the target (`inject_dll`). -/
  | alloc : Event
  /-- `WriteProcessMemory` wrote the DLL path into the target (`inject_dll`). -/
  | write : Event
  /-- `CreateRemoteThread` created the remote `LoadLibraryA` thread. -/
  | createThread : Event
  /-- `VirtualFreeEx` released the path memory in the target. -/
  | freeMem : Event
  /-- `CloseHandle` was called on the remote thread handle. -/
  | closeThread : Event
  /-- `system::open_executable` was invoked for an EXE-type tool. -/
  | openExe : String → Event
  /-- A per-tool soft failure was logged with `warn!` and the tool skipped. -/
  | warnSkip : Event
  /-- `ResumeThread` was called on the primary-thread handle (cleanup step). -/
  | resumeThread : Event
  /-- `CloseHandle` was called on the process handle (cleanup step). -/
  | closeProcessHandle : Event
  /-- `watch_game` spawned the watcher thread. -/
  | spawnWatcher : Event
deriving DecidableEq, Repr

/-- Oracle for one `inject_dll` call and the per-tool checks of the injection
loop in `launch_game`: one entry of the profile tool list together with the
outcome of every fallible OS interaction its processing can perform. -/
structure ToolCase where
  /-- The tool's display name (`tool.name`). -/
  name : String
  /-- Whether `system::resolve_path(&tool.path)` returns `Ok`. -/
  resolveOk : Bool
  /-- Whether the resolved path exists (`path.exists()`). -/
  pathExists : Bool
  /-- The extension of the resolved path (`path.extension()`), lossily
  converted to a string; `none` models a path with no extension. -/
  ext : Option String
  /-- The resolved path, lossily converted to a string. -/
  path : String
  /-- Whether `WriteProcessMemory` succeeds inside `inject_dll`. -/
  writeOk : Bool
  /-- Whether `CreateRemoteThread` succeeds inside `inject_dll`. -/
  threadCreated : Bool
  /-- Whether `WaitForSingleObject(thread, 2000)` returns `WAIT_OBJECT_0`,
  i.e. the remote thread completed within the 2-second timeout. -/
  waitCompleted : Bool
  /-- Whether `system::open_executable` succeeds for an EXE-type tool. -/
  exeOpenOk : Bool
deriving DecidableEq, Repr

/-- Embedding of `inject_dll` (game.rs): allocate path memory in the target,
write the DLL path, create a remote `LoadLibraryA` thread, wait up to 2
seconds, free the memory only when the wait completed, always close the
thread handle.  A failed `WriteProcessMemory` returns early without freeing
the allocation; a failed `CreateRemoteThread` frees it and returns early. -/
def inject_dll (writeOk threadCreated waitCompleted : Bool) :
    List Event × Except String Unit :=
  if !writeOk then
    ([.alloc], .error "game.error.launch.dll-fail")
  else if !threadCreated then
    ([.alloc, .write, .freeMem], .error "game.error.launch.dll-fail")
  else if waitCompleted then
    ([.alloc, .write, .createThread, .freeMem, .closeThread], .ok ())
  else
    ([.alloc, .write, .createThread, .closeThread], .ok ())

/-- Embedding of one iteration of the per-tool loop in `launch_game`
(game.rs): resolve the tool path, check existence and extension, then either
inject a DLL (propagating its error with `?`), spawn an EXE (logging
failures), or warn about an unknown tool type. -/
def processTool (t : ToolCase) : List Event × Except String Unit :=
  if !t.resolveOk then
    ([.toolAttempt t.name, .warnSkip], .ok ())
  else if !t.pathExists then
    ([.toolAttempt t.name, .warnSkip], .ok ())
  else
    match t.ext with
    | none => ([.toolAttempt t.name, .warnSkip], .ok ())
    | some e =>
      if e = "dll" then
        (.toolAttempt t.name :: (inject_dll t.writeOk t.threadCreated t.waitCompleted).1,
          (inject_dll t.writeOk t.threadCreated t.waitCompleted).2)
      else if e = "exe" then
        if t.exeOpenOk then
          ([.toolAttempt t.name, .openExe t.path], .ok ())
        else
          ([.toolAttempt t.name, .openExe t.path, .warnSkip], .ok ())
      else
        ([.toolAttempt t.name, .warnSkip], .ok ())

/-- Embedding of the whole per-tool loop of `launch_game` (game.rs): tools are
processed in order; a `.ok` iteration continues with the rest of the list, an
`.error` iteration aborts the loop (the `?` on `inject_dll`). -/
def injectLoop : List ToolCase → List Event × Except String Unit
  | [] => ([], .ok ())
  | t :: rest =>
    match (processTool t).2 with
    | .error e => ((processTool t).1, .error e)
    | .ok _ => ((processTool t).1 ++ (injectLoop rest).1, (injectLoop rest).2)

/-- Oracle for `open_game` (game.rs): outcome of each fallible Win32 step of
process creation. -/
structure OpenGameEnv where
  /-- Whether `OpenProcessToken(GetCurrentProcess(), ...)` succeeds. -/
  tokenOk : Bool
  /-- Whether a process named `explorer.exe` is found by the system scan. -/
  explorerFound : Bool
  /-- Whether `OpenProcess(PROCESS_ALL_ACCESS, ...)` on explorer succeeds. -/
  explorerOpenOk : Bool
  /-- Whether the resulting explorer handle passes the `is_invalid` check. -/
  explorerValid : Bool
  /-- Whether `system::canonicalize(path)` succeeds. -/
  canonOk : Bool
  /-- Whether `CreateProcessAsUserA` succeeds. -/
  createOk : Bool
deriving DecidableEq, Repr

/-- Embedding of `open_game` (game.rs): obtain the caller's token, find and
open the interactive-desktop explorer process, canonicalize the game path and
create the game process, returning its handle pair.  The `.openGame` event
records that the process was created and its handles obtained; every failure
returns before that, so no handles exist on error paths. -/
def open_game (e : OpenGameEnv) : List Event × Except String Unit :=
  if !e.tokenOk then ([], .error "game.error.launch.not-elevated")
  else if !e.explorerFound then ([], .error "game.error.launch.no-parent")
  else if !e.explorerOpenOk then ([], .error "game.error.launch.no-parent")
  else if !e.explorerValid then ([], .error "game.error.launch.no-parent")
  else if !e.canonOk then ([], .error "game.error.launch.bad-path")
  else if !e.createOk then ([], .error "game.error.launch.unknown")
  else ([.openGame], .ok ())

/-- Embedding of `suspend` (game.rs): resolve `NtSuspendProcess` from ntdll
and call it; the oracle says whether the two lookups succeed.  On failure no
suspension happens and an error is returned. -/
def suspendCall (lookupOk : Bool) : List Event × Except String Unit :=
  if lookupOk then ([.suspend], .ok ())
  else ([], .error "game.error.launch.unknown")

/-- Embedding of `resume` (game.rs): resolve `NtResumeProcess` from ntdll and
call it; the oracle says whether the two lookups succeed. -/
def resumeCall (lookupOk : Bool) : List Event × Except String Unit :=
  if lookupOk then ([.resume], .ok ())
  else ([], .error "game.error.launch.unknown")

/-- Oracle for `launch_game` (game.rs): outcome of every fallible step of the
launch sequence outside the per-tool loop. -/
structure LaunchEnv where
  /-- Oracle for the `open_game` step. -/
  og : OpenGameEnv
  /-- Whether the `driver_loaded` polling loop of `wait_for_driver` reaches a
  positive sighting of the anti-cheat driver without an enumeration error
  (`false` models an `EnumDeviceDrivers` failure during the load wait). -/
  driverFindOk : Bool
  /-- Whether the ntdll lookups inside `suspend` succeed. -/
  suspendOk : Bool
  /-- Whether the `driver_loaded` polling loop of `wait_for_driver` reaches
  the driver's disappearance without an enumeration error (`false` models an
  `EnumDeviceDrivers` failure during the unload wait, after the suspend). -/
  driverUnloadOk : Bool
  /-- Whether the ntdll lookups inside `resume` succeed. -/
  resumeOk : Bool
  /-- Whether `GetModuleHandleA("kernel32.dll")` succeeds. -/
  kernelOk : Bool
  /-- Whether `GetProcAddress(kernel, "LoadLibraryA")` succeeds. -/
  loadLibraryOk : Bool
deriving DecidableEq, Repr

/-- Embedding of `wait_for_driver` (game.rs): poll the loaded-driver list
until the anti-cheat driver appears, suspend the target, poll until the
driver disappears, then resume the target.  `driver_loaded` errors are
propagated with `?` at every call site, including the ones made after the
suspend. -/
def wait_for_driver (e : LaunchEnv) : List Event × Except String Unit :=
  if !e.driverFindOk then ([], .error "game.error.launch.unknown")
  else
    match (suspendCall e.suspendOk).2 with
    | .error err => ((suspendCall e.suspendOk).1, .error err)
    | .ok _ =>
      if !e.driverUnloadOk then
        ((suspendCall e.suspendOk).1, .error "game.error.launch.unknown")
      else
        ((suspendCall e.suspendOk).1 ++ (resumeCall e.resumeOk).1,
          (resumeCall e.resumeOk).2)

/-- Step 2 of `launch_game` (game.rs): the anti-cheat gate, run only when
`config.game.disable_anti_cheat` is set. -/
def gateStep (disableAC : Bool) (e : LaunchEnv) :
    List Event × Except String Unit :=
  if disableAC then wait_for_driver e else ([], .ok ())

/-- Pre-injection suspension of `launch_game` (game.rs), run only when the
anti-cheat gate is not enabled. -/
def suspendStep (disableAC : Bool) (e : LaunchEnv) :
    List Event × Except String Unit :=
  if !disableAC then suspendCall e.suspendOk else ([], .ok ())

/-- Post-injection resumption of `launch_game` (game.rs), run only when the
anti-cheat gate is not enabled. -/
def resumeStep (disableAC : Bool) (e : LaunchEnv) :
    List Event × Except String Unit :=
  if !disableAC then resumeCall e.resumeOk else ([], .ok ())

/-- Embedding of the Windows `launch_game` (game.rs): create the process via
`open_game`; when the anti-cheat gate is enabled run `wait_for_driver`;
resolve `LoadLibraryA`; when the gate is disabled suspend the target; run the
per-tool injection loop; when the gate is disabled resume the target; finally
resume the primary thread and close the process handle.  Every `?` error
return aborts the remainder of the sequence. -/
def launch_game (disableAC : Bool) (e : LaunchEnv) (tools : List ToolCase) :
    List Event × Except String Unit :=
  match (open_game e.og).2 with
  | .error err => ((open_game e.og).1, .error err)
  | .ok _ =>
    match (gateStep disableAC e).2 with
    | .error err => ((open_game e.og).1 ++ (gateStep disableAC e).1, .error err)
    | .ok _ =>
      if !e.kernelOk then
        ((open_game e.og).1 ++ (gateStep disableAC e).1,
          .error "game.error.launch.unknown")
      else if !e.loadLibraryOk then
        ((open_game e.og).1 ++ (gateStep disableAC e).1,
          .error "game.error.launch.dll-fail")
      else
        match (suspendStep disableAC e).2 with
        | .error err =>
          ((open_game e.og).1 ++ (gateStep disableAC e).1 ++
            (suspendStep disableAC e).1, .error err)
        | .ok _ =>
          match (injectLoop tools).2 with
          | .error err =>
            ((open_game e.og).1 ++ (gateStep disableAC e).1 ++
              (suspendStep disableAC e).1 ++ (injectLoop tools).1, .error err)
          | .ok _ =>
            match (resumeStep disableAC e).2 with
            | .error err =>
              ((open_game e.og).1 ++ (gateStep disableAC e).1 ++
                (suspendStep disableAC e).1 ++ (injectLoop tools).1 ++
                (resumeStep disableAC e).1, .error err)
            | .ok _ =>
              ((open_game e.og).1 ++ (gateStep disableAC e).1 ++
                (suspendStep disableAC e).1 ++ (injectLoop tools).1 ++
                (resumeStep disableAC e).1 ++
                [.resumeThread, .closeProcessHandle], .ok ())

/-- Embedding of `game__is_open` (game.rs): with no selected profile the
command returns `false`; otherwise it reports whether a process with the
profile executable's name is present (`system::find_process`). -/
def game__is_open (profileSelected processPresent : Bool) : Bool :=
  profileSelected && processPresent

/-- Embedding of the `game__launch` Tauri command (game.rs): refuse when the
game is already open, refuse when no profile is selected, otherwise spawn the
watcher thread (`watch_game`) and then run the launch sequence
(`launch_game`). -/
def game__launch (profileSelected processPresent disableAC : Bool)
    (e : LaunchEnv) (tools : List ToolCase) : List Event × Except String Unit :=
  if game__is_open profileSelected processPresent then
    ([], .error "game.error.already-open")
  else if !profileSelected then
    ([], .error "game.error.launch.no-profile")
  else
    (.spawnWatcher :: (launch_game disableAC e tools).1,
      (launch_game disableAC e tools).2)

/-- Matcher for the `(OS|CN)` region group of `VERSION_STRING_REGEX`
(game.rs): tried in alternation order, returning the consumed characters and
the remainder. -/
def matchRegion : List Char → Option (List Char × List Char)
  | 'O' :: 'S' :: rest => some (['O', 'S'], rest)
  | 'C' :: 'N' :: rest => some (['C', 'N'], rest)
  | _ => none

/-- Matcher for the `(REL|CB)` channel group of `VERSION_STRING_REGEX`
(game.rs): tried in alternation order. -/
def matchChannel : List Char → Option (List Char × List Char)
  | 'R' :: 'E' :: 'L' :: rest => some (['R', 'E', 'L'], rest)
  | 'C' :: 'B' :: rest => some (['C', 'B'], rest)
  | _ => none

/-- Matcher for `VERSION_STRING_REGEX` =
`(OS|CN)(REL|CB)Win([1-9])\.([0-9])\.([0-9]*)` (game.rs) anchored at the head
of the input, returning the full matched substring.  The trailing `[0-9]*` is
greedy, so the match extends over every following digit. -/
def matchVersionAt (l : List Char) : Option (List Char) := do
  let (reg, l) ← matchRegion l
  let (ch, l) ← matchChannel l
  match l with
  | 'W' :: 'i' :: 'n' :: maj :: '.' :: mi :: '.' :: rest =>
    if ('1' ≤ maj && maj ≤ '9') && mi.isDigit then
      some (reg ++ ch ++ ['W', 'i', 'n', maj, '.', mi, '.'] ++
        rest.takeWhile Char.isDigit)
    else none
  | _ => none

/-- Leftmost-match search of `VERSION_STRING_REGEX.captures` (game.rs): try
the matcher at every position from left to right and return the first
match. -/
def findFirstVersion : List Char → Option (List Char)
  | [] => none
  | c :: rest =>
    match matchVersionAt (c :: rest) with
    | some m => some m
    | none => findFirstVersion rest

/-- Which file `locate_game` (game.rs) reads for the version scan. -/
inductive ScanTarget where
  /-- The sibling `UnityPlayer.dll` next to the executable. -/
  | unityPlayer : ScanTarget
  /-- The game executable itself. -/
  | executable : ScanTarget
deriving DecidableEq, Repr

/-- Oracle for `locate_game` (game.rs): the filesystem and database facts it
observes. -/
structure LocateEnv where
  /-- Whether `PathBuf::from(&path).parent()` is `Some`. -/
  hasParent : Bool
  /-- Whether the sibling `UnityPlayer.dll` exists next to the executable. -/
  unityExists : Bool
  /-- Whether `std::fs::read` of the chosen file succeeds. -/
  readOk : Bool
  /-- Content of `UnityPlayer.dll` after `String::from_utf8_lossy`. -/
  unityData : List Char
  /-- Content of the executable after `String::from_utf8_lossy`. -/
  exeData : List Char
  /-- Outcome of the `SELECT * FROM versions WHERE version = $1` query:
  `none` models a database error other than `RowNotFound`, `some true` a row
  found, `some false` `RowNotFound`. -/
  versionRow : Option Bool
  /-- Whether `version.save()` succeeds. -/
  saveOk : Bool
deriving DecidableEq, Repr

/-- Result of the embedded `locate_game`. -/
structure LocateOut where
  /-- The `MaybeError<()>` return value of `locate_game`. -/
  res : Except String Unit
  /-- The version string inserted into the `versions` table, when any. -/
  inserted : Option (List Char)
  /-- The file that was read for the version scan, when a read happened. -/
  scanned : Option ScanTarget
deriving Repr

/-- The file `locate_game` (game.rs) chooses for the version scan: the
sibling `UnityPlayer.dll` when it exists, the executable otherwise. -/
def scanChoice (e : LocateEnv) : ScanTarget :=
  if e.unityExists then .unityPlayer else .executable

/-- Data of the file `locate_game` scans for the version string: the sibling
`UnityPlayer.dll` when it exists, the executable otherwise. -/
def locateData (e : LocateEnv) : List Char :=
  if e.unityExists then e.unityData else e.exeData

/-- Embedding of `locate_game` (game.rs): take the executable's parent
directory, read `UnityPlayer.dll` when it exists next to the executable and
the executable itself otherwise, search the lossy text for the first
`VERSION_STRING_REGEX` match, then insert the version unless it is already
in the database. -/
def locate_game (e : LocateEnv) : LocateOut :=
  if !e.hasParent then
    ⟨.error "backend.version.resolve.error", none, none⟩
  else if !e.readOk then
    ⟨.error "backend.version.resolve.error", none, some (scanChoice e)⟩
  else
    match findFirstVersion (locateData e) with
    | none => ⟨.error "backend.version.resolve.error", none, some (scanChoice e)⟩
    | some v =>
      match e.versionRow with
      | none => ⟨.error "database.query-failed", none, some (scanChoice e)⟩
      | some true =>
        ⟨.error "backend.version.resolve.exists", none, some (scanChoice e)⟩
      | some false =>
        if e.saveOk then ⟨.ok (), some v, some (scanChoice e)⟩
        else ⟨.error "database.query-failed", none, some (scanChoice e)⟩

/-- One polling loop of the `watch_game` thread body (game.rs): consume
`system::find_process` poll results until one equals `target` (the loop's
exit condition); return the remaining polls, or `none` when the finite poll
list ends with the loop still spinning. -/
def dropUntilPoll (target : Bool) : List Bool → Option (List Bool)
  | [] => none
  | b :: rest => if b = target then some rest else dropUntilPoll target rest

/-- Embedding of the thread body of `watch_game` (game.rs) over the sequence
of `system::find_process` poll results it observes: wait for the first
positive poll, broadcast `true`, wait for the next negative poll, broadcast
`false`.  A finite poll list that never reaches the awaited condition leaves
the thread still polling, so the corresponding broadcast never happens. -/
def watch_game_emits (polls : List Bool) : List Bool :=
  match dropUntilPoll true polls with
  | none => []
  | some rest =>
    match dropUntilPoll false rest with
    | none => [true]
    | some _ => [true, false]

/-- Total UTF-8 byte length of a string given as its character list. -/
def byteLen (l : List Char) : Nat :=
  (l.map Char.utf8Size).sum

/-- Byte-indexed slicing step of Rust's `&s[n..]`: drop the characters
covering the first `n` bytes.  Returns `none` exactly when Rust would panic:
when `n` exceeds the byte length of the string or falls inside a character's
encoding (no character boundary at byte `n`). -/
def dropBytes : Nat → List Char → Option (List Char)
  | 0, l => some l
  | _ + 1, [] => none
  | n + 1, c :: rest =>
    if c.utf8Size ≤ n + 1 then dropBytes (n + 1 - c.utf8Size) rest else none

/-- Embedding of the Windows branch of `system::canonicalize` (system.rs),
parameterized by the trimmed lossy string the OS canonicalization produced:
the code returns `path[4..].to_string()`, i.e. the string with its first four
bytes removed; `none` models the panic of the byte-range slice. -/
def canonicalize (canonical : List Char) : Option (List Char) :=
  dropBytes 4 canonical

/-- Character substitution performed by `.replace("\\", "/")` in
`utils::get_executable_name` (utils.rs): the pattern is the single backslash
character, so the replacement is character-wise. -/
def sepReplace (c : Char) : Char :=
  if c = '\\' then '/' else c

/-- List-level embedding of Rust's `str::split('/')`: splitting always yields
at least one (possibly empty) piece. -/
def splitOnSlash : List Char → List (List Char)
  | [] => [[]]
  | c :: rest =>
    if c = '/' then [] :: splitOnSlash rest
    else
      match splitOnSlash rest with
      | [] => [[c]]
      | p :: ps => (c :: p) :: ps

/-- Embedding of `utils::get_executable_name` (utils.rs): normalize
backslashes to slashes, split on `/`, take the last piece, and fall back to
the compile-time default executable name (the `dotenv!` value, a parameter
here) when `split` yields no element. -/
def get_executable_name (default_exe : List Char) (path : List Char) :
    List Char :=
  ((splitOnSlash (path.map sepReplace)).getLast?).getD default_exe

/-- Modelled from the spec (claim wording for `get_executable_name`): the
substring after the last `/` or `\` separator, the whole string when no
separator is present. -/
def afterLastSep (path : List Char) : List Char :=
  (path.reverse.takeWhile (fun c => !(c = '/' || c = '\\'))).reverse

/-- Predicate on a tool-list entry saying that, should its processing reach
`inject_dll`, the injection does not fail: whenever the path resolves,
exists, and carries the `dll` extension, both `WriteProcessMemory` and
`CreateRemoteThread` succeed (a remote-thread timeout is not an `inject_dll`
failure: the code still returns `Ok` then). -/
def ToolCase.dllInjectionSucceeds (t : ToolCase) : Prop :=
  t.resolveOk = true → t.pathExists = true → t.ext = some "dll" →
    (t.writeOk = true ∧ t.threadCreated = true)

instance (t : ToolCase) : Decidable t.dllInjectionSucceeds := by
  unfold ToolCase.dllInjectionSucceeds
  infer_instance

/-- Number of `NtResumeProcess` calls on the target that occur before the
first `ResumeThread` on the primary thread (on successful launches the
trace contains exactly one trailing `ResumeThread`, so this counts the
resumes prior to the final primary-thread resumption). -/
def resumesBeforeFinalResume (tr : List Event) : Nat :=
  (tr.takeWhile (fun ev => ev != Event.resumeThread)).count Event.resume

/-- A launch oracle in which every OS interaction succeeds. -/
def envAllOk : LaunchEnv :=
  ⟨⟨true, true, true, true, true, true⟩, true, true, true, true, true, true⟩

/-- A DLL-type tool entry whose `WriteProcessMemory` fails, so that
`inject_dll` returns an error. -/
def toolDllWriteFails : ToolCase :=
  ⟨"a", true, true, some "dll", "C:/mods/a.dll", false, true, true, true⟩

/-- A DLL-type tool entry whose injection fully succeeds. -/
def toolDllOk : ToolCase :=
  ⟨"b", true, true, some "dll", "C:/mods/b.dll", true, true, true, true⟩

/-- A tool entry whose path fails to resolve, a soft (skip-and-continue)
failure. -/
def toolUnresolvable : ToolCase :=
  ⟨"c", false, true, some "dll", "C:/mods/c.dll", true, true, true, true⟩

lemma inject_dll_core_events (w c f : Bool) :
    Event.suspend ∉ (inject_dll w c f).1 ∧
      Event.resume ∉ (inject_dll w c f).1 ∧
      Event.resumeThread ∉ (inject_dll w c f).1 := by
  cases w <;> cases c <;> cases f <;> decide

lemma processTool_attempt (t : ToolCase) :
    Event.toolAttempt t.name ∈ (processTool t).1 := by
  unfold processTool
  repeat' split
  all_goals simp

lemma inject_dll_ok (w c f : Bool) (hw : w = true) (hc : c = true) :
    (inject_dll w c f).2 = .ok () := by
  subst hw; subst hc; cases f <;> rfl

lemma processTool_ok (t : ToolCase) (h : t.dllInjectionSucceeds) :
    (processTool t).2 = .ok () := by
  unfold ToolCase.dllInjectionSucceeds at h
  unfold processTool
  repeat' split
  all_goals try rfl
  all_goals (refine inject_dll_ok _ _ _ ?_ ?_ <;> simp_all)

lemma processTool_core_events (t : ToolCase) :
    Event.suspend ∉ (processTool t).1 ∧ Event.resume ∉ (processTool t).1 ∧
      Event.resumeThread ∉ (processTool t).1 := by
  have hi := inject_dll_core_events t.writeOk t.threadCreated t.waitCompleted
  unfold processTool
  repeat' split
  all_goals simp_all

lemma injectLoop_core_events (tools : List ToolCase) :
    Event.suspend ∉ (injectLoop tools).1 ∧
      Event.resume ∉ (injectLoop tools).1 ∧
      Event.resumeThread ∉ (injectLoop tools).1 := by
  induction tools with
  | nil => simp [injectLoop]
  | cons t rest ih =>
    have ht := processTool_core_events t
    unfold injectLoop
    split
    all_goals simp_all

end YsCompass

namespace YsCompass

lemma open_game_ok (g : OpenGameEnv) (h : (open_game g).2 = .ok ()) :
    open_game g = ([Event.openGame], .ok ()) := by
  unfold open_game at h ⊢
  repeat' split at h
  all_goals simp_all

lemma suspendCall_ok (b : Bool) (h : (suspendCall b).2 = .ok ()) :
    suspendCall b = ([Event.suspend], .ok ()) := by
  cases b <;> simp_all [suspendCall]

lemma resumeCall_ok (b : Bool) (h : (resumeCall b).2 = .ok ()) :
    resumeCall b = ([Event.resume], .ok ()) := by
  cases b <;> simp_all [resumeCall]

lemma wait_for_driver_ok (e : LaunchEnv) (h : (wait_for_driver e).2 = .ok ()) :
    wait_for_driver e = ([Event.suspend, Event.resume], .ok ()) := by
  cases hd : e.driverFindOk <;> cases hs : e.suspendOk <;>
    cases hu : e.driverUnloadOk <;> cases hr : e.resumeOk <;>
    simp_all [wait_for_driver, suspendCall, resumeCall]

lemma gateStep_ok (d : Bool) (e : LaunchEnv) (h : (gateStep d e).2 = .ok ()) :
    gateStep d e = ((if d then [Event.suspend, Event.resume] else []), .ok ()) := by
  cases d
  · rfl
  · simp only [gateStep, if_true] at h ⊢
    exact wait_for_driver_ok e h

lemma suspendStep_ok (d : Bool) (e : LaunchEnv)
    (h : (suspendStep d e).2 = .ok ()) :
    suspendStep d e = ((if d then [] else [Event.suspend]), .ok ()) := by
  cases d
  · simp only [suspendStep, Bool.not_false, if_true] at h ⊢
    exact suspendCall_ok e.suspendOk h
  · rfl

lemma resumeStep_ok (d : Bool) (e : LaunchEnv)
    (h : (resumeStep d e).2 = .ok ()) :
    resumeStep d e = ((if d then [] else [Event.resume]), .ok ()) := by
  cases d
  · simp only [resumeStep, Bool.not_false, if_true] at h ⊢
    exact resumeCall_ok e.resumeOk h
  · rfl

lemma launch_game_ok_parts (d : Bool) (e : LaunchEnv) (ts : List ToolCase)
    (h : (launch_game d e ts).2 = .ok ()) :
    (open_game e.og).2 = .ok () ∧ (gateStep d e).2 = .ok () ∧
      e.kernelOk = true ∧ e.loadLibraryOk = true ∧
      (suspendStep d e).2 = .ok () ∧ (injectLoop ts).2 = .ok () ∧
      (resumeStep d e).2 = .ok () := by
  unfold launch_game at h
  repeat' split at h
  all_goals simp_all

lemma launch_game_ok_shape (d : Bool) (e : LaunchEnv) (ts : List ToolCase)
    (h : (launch_game d e ts).2 = .ok ()) :
    launch_game d e ts =
      ([Event.openGame] ++ (if d then [Event.suspend, Event.resume] else []) ++
        (if d then [] else [Event.suspend]) ++ (injectLoop ts).1 ++
        (if d then [] else [Event.resume]) ++
        [Event.resumeThread, Event.closeProcessHandle], .ok ()) := by
  obtain ⟨h0, h1, hk, hl, h2, h3, h4⟩ := launch_game_ok_parts d e ts h
  have hog := open_game_ok e.og h0
  have hgate := gateStep_ok d e h1
  have hsus := suspendStep_ok d e h2
  have hres := resumeStep_ok d e h4
  unfold launch_game
  rw [hog, hgate, hsus, hres]
  simp [hk, hl, h3]

/-- C6: in a DLL injection attempt where the remote thread was created, the
memory allocated in the target for the path string is freed if and only if
the thread completed within the fixed 2-second timeout, and the thread
handle is closed (exactly once) on every such outcome. -/
theorem c6_inject_free_iff_wait_handle_closed (w c f : Bool)
    (h : Event.createThread ∈ (inject_dll w c f).1) :
    (Event.freeMem ∈ (inject_dll w c f).1 ↔ f = true) ∧
      (inject_dll w c f).1.count Event.closeThread = 1 := by
  cases w <;> cases c <;> cases f <;> revert h <;> decide

/-- Witness for C6 at a concrete run whose remote thread timed out. -/
theorem c6_witness :
    Event.createThread ∈ (inject_dll true true false).1 ∧
      ((Event.freeMem ∈ (inject_dll true true false).1 ↔ false = true) ∧
        (inject_dll true true false).1.count Event.closeThread = 1) :=
  ⟨by decide, c6_inject_free_iff_wait_handle_closed true true false (by decide)⟩

/-- C1 counterexample: in a launch whose tool list is a failing DLL followed
by a fully valid DLL, the second tool is never attempted; the `?` on
`inject_dll` aborts the per-tool loop with the injection error. -/
theorem c1_counterexample :
    Event.toolAttempt "b" ∉
        (launch_game false envAllOk [toolDllWriteFails, toolDllOk]).1 ∧
      (launch_game false envAllOk [toolDllWriteFails, toolDllOk]).2 =
        Except.error "game.error.launch.dll-fail" :=
  ⟨by decide, rfl⟩

/-- C1 (amended): per-tool soft failures (unresolvable path, missing file,
missing or unknown extension, failed EXE launch) are isolated and the
remaining tools are still attempted, provided no DLL injection in the list
fails; a failing `inject_dll` aborts the remaining list. -/
theorem c1_soft_failures_isolated (tools : List ToolCase)
    (h : ∀ t ∈ tools, t.dllInjectionSucceeds) :
    ∀ t ∈ tools, Event.toolAttempt t.name ∈ (injectLoop tools).1 := by
  induction tools with
  | nil => simp
  | cons a rest ih =>
    have ha : (processTool a).2 = .ok () :=
      processTool_ok a (h a (List.mem_cons_self a rest))
    have hloop : injectLoop (a :: rest) =
        ((processTool a).1 ++ (injectLoop rest).1, (injectLoop rest).2) := by
      conv_lhs => rw [injectLoop]
      rw [ha]
    intro t ht
    rw [hloop]
    rcases List.mem_cons.mp ht with h1 | h2
    · subst h1
      exact List.mem_append_left _ (processTool_attempt t)
    · exact List.mem_append_right _
        (ih (fun u hu => h u (List.mem_cons_of_mem _ hu)) t h2)

/-- Witness for C1 (amended): a soft-failing tool followed by a valid DLL
still gets the valid DLL attempted. -/
theorem c1_witness :
    Event.toolAttempt "b" ∈ (injectLoop [toolUnresolvable, toolDllOk]).1 :=
  c1_soft_failures_isolated [toolUnresolvable, toolDllOk] (by decide)
    toolDllOk (by decide)

/-- C2: whenever a process matching the selected profile executable's name
is already present, `game__launch` returns the already-open error, with an
empty action trace: no watcher is spawned, no process is created and no
handle is obtained. -/
theorem c2_already_running_preflight (ps pp dAC : Bool) (e : LaunchEnv)
    (tools : List ToolCase) (hps : ps = true) (hpp : pp = true) :
    game__launch ps pp dAC e tools = ([], .error "game.error.already-open") ∧
      Event.openGame ∉ (game__launch ps pp dAC e tools).1 := by
  subst hps
  subst hpp
  exact ⟨rfl, by simp [game__launch, game__is_open]⟩

/-- Witness for C2 at a concrete already-running launch attempt. -/
theorem c2_witness :
    game__launch true true false envAllOk [] =
        ([], .error "game.error.already-open") ∧
      Event.openGame ∉ (game__launch true true false envAllOk []).1 :=
  c2_already_running_preflight true true false envAllOk [] rfl rfl

/-- C4 counterexample: on a fully successful launch, the watcher thread is
spawned first, before the process is even created — not after the launch
sequence completes. -/
theorem c4_counterexample :
    game__launch true false false envAllOk [] =
        ([Event.spawnWatcher, Event.openGame, Event.suspend, Event.resume,
          Event.resumeThread, Event.closeProcessHandle], Except.ok ()) ∧
      (game__launch true false false envAllOk []).1.head? =
        some Event.spawnWatcher ∧
      Event.openGame ∈ (game__launch true false false envAllOk []).1.tail :=
  ⟨rfl, rfl, by decide⟩

/-- C4 (amended): for every launch call that passes the already-running and
profile checks, the watcher thread is spawned before the launch sequence
(privilege bridge, process creation, gate, injection, handle cleanup) runs,
and the rest of the trace is exactly the launch sequence's. -/
theorem c4_watcher_spawned_before_launch (ps pp dAC : Bool) (e : LaunchEnv)
    (tools : List ToolCase) (hps : ps = true) (hpp : pp = false) :
    (game__launch ps pp dAC e tools).1 =
        Event.spawnWatcher :: (launch_game dAC e tools).1 ∧
      (game__launch ps pp dAC e tools).2 = (launch_game dAC e tools).2 := by
  subst hps
  subst hpp
  exact ⟨rfl, rfl⟩

/-- Witness for C4 (amended) at a concrete successful launch. -/
theorem c4_witness :
    (game__launch true false false envAllOk []).1 =
        Event.spawnWatcher :: (launch_game false envAllOk []).1 ∧
      (game__launch true false false envAllOk []).2 =
        (launch_game false envAllOk []).2 :=
  c4_watcher_spawned_before_launch true false false envAllOk [] rfl rfl

end YsCompass

namespace YsCompass

/-- C3 counterexample: with the anti-cheat gate disabled (zero enabled
gates), a fully successful launch still performs one resume before the final
primary-thread resumption, not zero; and on the error path of a failing DLL
injection while suspended, the suspend is never paired with a resume and the
primary thread is never resumed. -/
theorem c3_counterexample :
    ((launch_game false envAllOk []).2 = Except.ok () ∧
      resumesBeforeFinalResume (launch_game false envAllOk []).1 = 1) ∧
    ((launch_game false envAllOk [toolDllWriteFails]).1.count Event.suspend = 1 ∧
      (launch_game false envAllOk [toolDllWriteFails]).1.count Event.resume = 0 ∧
      Event.resumeThread ∉ (launch_game false envAllOk [toolDllWriteFails]).1) :=
  ⟨⟨rfl, by decide⟩, by decide⟩

/-- C3 (amended): on every execution path of a launch that returns success,
suspend and resume calls on the target are exactly balanced — exactly one
suspend and exactly one resume occur, both prior to the final primary-thread
resumption, whichever gate configuration is active; on error paths after a
suspend the pairing can be broken and the primary thread never resumed. -/
theorem c3_suspend_resume_balanced_on_success (d : Bool) (e : LaunchEnv)
    (ts : List ToolCase) (h : (launch_game d e ts).2 = .ok ()) :
    ∃ pre, (launch_game d e ts).1 =
        pre ++ [Event.resumeThread, Event.closeProcessHandle] ∧
      pre.count Event.suspend = 1 ∧ pre.count Event.resume = 1 ∧
      Event.resumeThread ∉ pre := by
  have hshape := launch_game_ok_shape d e ts h
  obtain ⟨hs, hr, hrt⟩ := injectLoop_core_events ts
  have hsc : (injectLoop ts).1.count Event.suspend = 0 :=
    List.count_eq_zero.mpr hs
  have hrc : (injectLoop ts).1.count Event.resume = 0 :=
    List.count_eq_zero.mpr hr
  refine ⟨[Event.openGame] ++ (if d then [Event.suspend, Event.resume] else []) ++
    (if d then [] else [Event.suspend]) ++ (injectLoop ts).1 ++
    (if d then [] else [Event.resume]), ?_, ?_, ?_, ?_⟩
  · rw [hshape]
  · cases d <;> simp [List.count_append, hsc]
  · cases d <;> simp [List.count_append, hrc]
  · cases d <;> simp_all

/-- Witness for C3 (amended) at a concrete successful gated launch. -/
theorem c3_witness :
    ∃ pre, (launch_game true envAllOk [toolDllOk]).1 =
        pre ++ [Event.resumeThread, Event.closeProcessHandle] ∧
      pre.count Event.suspend = 1 ∧ pre.count Event.resume = 1 ∧
      Event.resumeThread ∉ pre :=
  c3_suspend_resume_balanced_on_success true envAllOk [toolDllOk] rfl

end YsCompass

namespace YsCompass

lemma dropUntilPoll_of_mem (t : Bool) (l : List Bool) (h : t ∈ l) :
    ∃ r, dropUntilPoll t l = some r := by
  induction l with
  | nil => cases h
  | cons b rest ih =>
    by_cases hb : b = t
    · exact ⟨rest, by simp [dropUntilPoll, hb]⟩
    · have hmem : t ∈ rest := by
        rcases List.mem_cons.mp h with h1 | h2
        · exact absurd h1.symm hb
        · exact h2
      obtain ⟨r, hr⟩ := ih hmem
      exact ⟨r, by simp [dropUntilPoll, hb, hr]⟩

/-- C8: for every completed watched launch — the watcher observes the game
process present at some poll and absent at a later poll — the status
broadcast emits exactly one `true` followed by exactly one `false`, and in
particular never two consecutive `true` values. -/
theorem c8_status_broadcast (polls : List Bool) (i j : Nat) (hij : i < j)
    (hi : polls[i]? = some true) (hj : polls[j]? = some false) :
    watch_game_emits polls = [true, false] := by
  induction polls generalizing i j with
  | nil => simp at hi
  | cons b rest ih =>
    cases b
    case false =>
      have hi1 : 1 ≤ i := by
        rcases Nat.eq_zero_or_pos i with h0 | h1
        · subst h0; simp at hi
        · exact h1
      obtain ⟨i2, rfl⟩ : ∃ k, i = k + 1 := ⟨i - 1, by omega⟩
      obtain ⟨j2, rfl⟩ : ∃ k, j = k + 1 := ⟨j - 1, by omega⟩
      have hir : rest[i2]? = some true := by simpa using hi
      have hjr : rest[j2]? = some false := by simpa using hj
      have hstep : watch_game_emits (false :: rest) = watch_game_emits rest := by
        simp [watch_game_emits, dropUntilPoll]
      rw [hstep]
      exact ih i2 j2 (by omega) hir hjr
    case true =>
      have hj1 : 1 ≤ j := by omega
      obtain ⟨k, rfl⟩ : ∃ k, j = k + 1 := ⟨j - 1, by omega⟩
      have hjr : rest[k]? = some false := by simpa using hj
      have hfmem : false ∈ rest := by
        have hk : k < rest.length := by
          by_contra hk
          rw [List.getElem?_eq_none (by omega)] at hjr
          exact Option.noConfusion hjr
        rw [List.getElem?_eq_getElem hk] at hjr
        exact (Option.some.injEq _ _).mp hjr ▸ List.getElem_mem hk
      obtain ⟨r, hr⟩ := dropUntilPoll_of_mem false rest hfmem
      simp [watch_game_emits, dropUntilPoll, hr]

/-- Witness for C8 at a concrete completed watched launch. -/
theorem c8_witness :
    (1 : Nat) < 3 ∧
      ([false, true, true, false] : List Bool)[1]? = some true ∧
      ([false, true, true, false] : List Bool)[3]? = some false ∧
      watch_game_emits [false, true, true, false] = [true, false] :=
  ⟨by decide, by decide, by decide,
    c8_status_broadcast [false, true, true, false] 1 3 (by decide) (by decide)
      (by decide)⟩

end YsCompass

namespace YsCompass

lemma matchVersionAt_nil : matchVersionAt [] = none := rfl

lemma findFirstVersion_cons (c : Char) (l : List Char) :
    findFirstVersion (c :: l) =
      match matchVersionAt (c :: l) with
      | some m => some m
      | none => findFirstVersion l := rfl

lemma findFirstVersion_skip (pre rest : List Char)
    (h : ∀ j < pre.length, matchVersionAt ((pre ++ rest).drop j) = none) :
    findFirstVersion (pre ++ rest) = findFirstVersion rest := by
  induction pre with
  | nil => simp
  | cons c cs ih =>
    have h0 : matchVersionAt (c :: (cs ++ rest)) = none := by
      simpa using h 0 (by simp)
    rw [List.cons_append, findFirstVersion_cons, h0]
    exact ih fun j hj => by
      simpa using h (j + 1) (by simpa using Nat.succ_lt_succ hj)

lemma findFirstVersion_none (l : List Char)
    (h : ∀ j < l.length, matchVersionAt (l.drop j) = none) :
    findFirstVersion l = none := by
  induction l with
  | nil => rfl
  | cons c cs ih =>
    have h0 : matchVersionAt (c :: cs) = none := by simpa using h 0 (by simp)
    rw [findFirstVersion_cons, h0]
    exact ih fun j hj => by simpa using h (j + 1) (Nat.succ_lt_succ hj)

lemma findFirstVersion_of_match (l tok : List Char)
    (h : matchVersionAt l = some tok) : findFirstVersion l = some tok := by
  cases l with
  | nil => rw [matchVersionAt_nil] at h; cases h
  | cons c cs => rw [findFirstVersion_cons, h]

/-- C5: the Version Resolver returns the first (leftmost) substring of the
scanned binary matching `VERSION_STRING_REGEX`; a binary containing one
well-formed token (a token matching the pattern, with no earlier match)
yields exactly that token and the version is the one stored, while a binary
with zero matches at every position yields the version-resolution error. -/
theorem c5_version_resolver (e : LocateEnv) (pre tok post : List Char) :
    (e.hasParent = true → e.readOk = true →
      locateData e = pre ++ (tok ++ post) →
      matchVersionAt (tok ++ post) = some tok →
      (∀ j < pre.length, matchVersionAt ((locateData e).drop j) = none) →
      e.versionRow = some false → e.saveOk = true →
      locate_game e = ⟨.ok (), some tok, some (scanChoice e)⟩) ∧
    (e.hasParent = true → e.readOk = true →
      (∀ j < (locateData e).length, matchVersionAt ((locateData e).drop j) = none) →
      (locate_game e).res = .error "backend.version.resolve.error") := by
  constructor
  · intro hp hr hdata hmatch hnone hrow hsave
    have hnone2 : ∀ j < pre.length,
        matchVersionAt ((pre ++ (tok ++ post)).drop j) = none := by
      rw [← hdata]; exact hnone
    have hfind : findFirstVersion (locateData e) = some tok := by
      rw [hdata, findFirstVersion_skip pre (tok ++ post) hnone2]
      exact findFirstVersion_of_match _ _ hmatch
    simp [locate_game, hp, hr, hfind, hrow, hsave]
  · intro hp hr hnone
    have hfind := findFirstVersion_none _ hnone
    simp [locate_game, hp, hr, hfind]

/-- Witness for C5 at a concrete binary containing exactly one token. -/
theorem c5_witness :
    locate_game ⟨true, true, true, "xxOSRELWin1.2.3yy".data, [], some false,
        true⟩ =
      ⟨.ok (), some ("OSRELWin1.2.3".data), some ScanTarget.unityPlayer⟩ := by
  have h := (c5_version_resolver
    ⟨true, true, true, "xxOSRELWin1.2.3yy".data, [], some false, true⟩
    ("xx".data) ("OSRELWin1.2.3".data) ("yy".data)).1
    rfl rfl (by decide) (by decide) (by decide) rfl rfl
  simpa using h

/-- C7: for every executable path whose parent directory exists, the Version
Resolver scans the sibling `UnityPlayer.dll` when it exists next to the
executable (its result is then independent of the executable's content), and
scans the executable itself otherwise (its result is then independent of the
library's content). -/
theorem c7_scan_target (e : LocateEnv) (h : e.hasParent = true) :
    (locate_game e).scanned = some (scanChoice e) ∧
      (e.unityExists = true → ∀ d,
        locate_game e = locate_game ⟨e.hasParent, e.unityExists, e.readOk,
          e.unityData, d, e.versionRow, e.saveOk⟩) ∧
      (e.unityExists = false → ∀ d,
        locate_game e = locate_game ⟨e.hasParent, e.unityExists, e.readOk,
          d, e.exeData, e.versionRow, e.saveOk⟩) := by
  refine ⟨?_, ?_, ?_⟩
  · unfold locate_game
    rw [h]
    repeat' split
    all_goals simp_all
  · intro hu d
    simp [locate_game, scanChoice, locateData, h, hu]
  · intro hu d
    simp [locate_game, scanChoice, locateData, h, hu]

/-- Witness for C7 at a concrete install with a sibling `UnityPlayer.dll`. -/
theorem c7_witness :
    (locate_game ⟨true, true, true, "OSRELWin1.2.3".data, [], some false,
          true⟩).scanned =
      some (scanChoice ⟨true, true, true, "OSRELWin1.2.3".data, [], some false,
        true⟩) :=
  (c7_scan_target ⟨true, true, true, "OSRELWin1.2.3".data, [], some false,
    true⟩ rfl).1

end YsCompass

namespace YsCompass

lemma byteLen_nil : byteLen [] = 0 := rfl

lemma byteLen_cons (c : Char) (l : List Char) :
    byteLen (c :: l) = c.utf8Size + byteLen l := by
  simp [byteLen]

lemma dropBytes_append (pre suf : List Char) :
    dropBytes (byteLen pre) (pre ++ suf) = some suf := by
  induction pre with
  | nil =>
    rw [byteLen_nil]
    simp [dropBytes]
  | cons c cs ih =>
    have hpos := Char.utf8Size_pos c
    rw [byteLen_cons, List.cons_append]
    obtain ⟨m, hm⟩ : ∃ m, c.utf8Size + byteLen cs = m + 1 :=
      ⟨c.utf8Size + byteLen cs - 1, by omega⟩
    rw [hm]
    unfold dropBytes
    rw [if_pos (by omega)]
    have hmm : m + 1 - c.utf8Size = byteLen cs := by omega
    rw [hmm]
    exact ih

lemma dropBytes_short (l : List Char) : ∀ n, byteLen l < n → dropBytes n l = none := by
  induction l with
  | nil =>
    intro n hn
    obtain ⟨m, rfl⟩ : ∃ m, n = m + 1 := ⟨n - 1, by omega⟩
    simp [dropBytes]
  | cons c cs ih =>
    intro n hn
    have hpos := Char.utf8Size_pos c
    rw [byteLen_cons] at hn
    obtain ⟨m, rfl⟩ : ∃ m, n = m + 1 := ⟨n - 1, by omega⟩
    unfold dropBytes
    by_cases hc : c.utf8Size ≤ m + 1
    · rw [if_pos hc]
      exact ih _ (by omega)
    · rw [if_neg hc]

lemma dropBytes_some (l : List Char) :
    ∀ n r, dropBytes n l = some r → ∃ p, l = p ++ r ∧ byteLen p = n := by
  induction l with
  | nil =>
    intro n r h
    cases n with
    | zero =>
      simp only [dropBytes, Option.some.injEq] at h
      exact ⟨[], by simp [h], rfl⟩
    | succ m => simp [dropBytes] at h
  | cons c cs ih =>
    intro n r h
    cases n with
    | zero =>
      simp only [dropBytes, Option.some.injEq] at h
      exact ⟨[], by simp [h], rfl⟩
    | succ m =>
      unfold dropBytes at h
      by_cases hc : c.utf8Size ≤ m + 1
      · rw [if_pos hc] at h
        obtain ⟨p, hp, hb⟩ := ih _ _ h
        refine ⟨c :: p, by simp [hp], ?_⟩
        rw [byteLen_cons, hb]
        omega
      · rw [if_neg hc] at h
        cases h

/-- C9: on Windows, `canonicalize` removes the first four bytes (the `\\?\`
prefix) from the canonicalized path; the byte-range slice is total exactly
when the canonical string splits at a character boundary four bytes in, and
any shorter canonical result panics. -/
theorem c9_canonicalize_strips_four_bytes (pre suf s : List Char) :
    (byteLen pre = 4 → canonicalize (pre ++ suf) = some suf) ∧
      (byteLen s < 4 → canonicalize s = none) ∧
      ((canonicalize s).isSome = true ↔ ∃ p q, s = p ++ q ∧ byteLen p = 4) := by
  refine ⟨?_, ?_, ?_, ?_⟩
  · intro h
    rw [canonicalize, ← h]
    exact dropBytes_append pre suf
  · intro h
    exact dropBytes_short s 4 h
  · intro h
    obtain ⟨r, hr⟩ := Option.isSome_iff_exists.mp h
    obtain ⟨p, hp, hb⟩ := dropBytes_some s 4 r hr
    exact ⟨p, r, hp, hb⟩
  · rintro ⟨p, q, rfl, hb⟩
    rw [canonicalize, ← hb, dropBytes_append]
    rfl

/-- Witness for C9 at a concrete canonicalized Windows path. -/
theorem c9_witness :
    byteLen ("\\\\?\\".data) = 4 ∧
      canonicalize (("\\\\?\\".data) ++ ("C:\\Game.exe".data)) =
        some ("C:\\Game.exe".data) :=
  ⟨by decide,
    (c9_canonicalize_strips_four_bytes ("\\\\?\\".data) ("C:\\Game.exe".data)
      []).1 (by decide)⟩

end YsCompass

namespace YsCompass

lemma takeWhile_append_single_neg (p : Char → Bool) (c : Char)
    (hc : p c = false) (xs : List Char) :
    (xs ++ [c]).takeWhile p = xs.takeWhile p := by
  induction xs with
  | nil => simp [List.takeWhile_cons, hc]
  | cons x xs ih =>
    by_cases hx : p x
    · simp [List.takeWhile_cons, hx, ih]
    · simp [List.takeWhile_cons, hx]

lemma takeWhile_append_stop (p : Char → Bool) (xs ys : List Char)
    (h : ∃ x ∈ xs, p x = false) : (xs ++ ys).takeWhile p = xs.takeWhile p := by
  induction xs with
  | nil =>
    obtain ⟨x, hx, _⟩ := h
    cases hx
  | cons a xs ih =>
    by_cases ha : p a
    · have h2 : ∃ x ∈ xs, p x = false := by
        obtain ⟨x, hx, hpx⟩ := h
        rcases List.mem_cons.mp hx with h1 | h1
        · rw [h1] at hpx
          rw [hpx] at ha
          cases ha
        · exact ⟨x, h1, hpx⟩
      simp [List.takeWhile_cons, ha, ih h2]
    · simp [List.takeWhile_cons, ha]

lemma splitOnSlash_ne_nil (l : List Char) : splitOnSlash l ≠ [] := by
  cases l with
  | nil => simp [splitOnSlash]
  | cons c rest =>
    unfold splitOnSlash
    repeat' split
    all_goals simp

lemma splitOnSlash_no_slash (l : List Char) (h : ('/' : Char) ∉ l) :
    splitOnSlash l = [l] := by
  induction l with
  | nil => rfl
  | cons c rest ih =>
    have hc : ¬ c = '/' := fun hh => h (hh ▸ List.mem_cons_self c rest)
    have hr : ('/' : Char) ∉ rest := fun hh => h (List.mem_cons_of_mem _ hh)
    unfold splitOnSlash
    rw [if_neg hc, ih hr]

lemma splitOnSlash_length_two (l : List Char) (h : ('/' : Char) ∈ l) :
    2 ≤ (splitOnSlash l).length := by
  induction l with
  | nil => cases h
  | cons c rest ih =>
    unfold splitOnSlash
    by_cases hc : c = '/'
    · rw [if_pos hc]
      have h1 : 0 < (splitOnSlash rest).length :=
        List.length_pos.mpr (splitOnSlash_ne_nil rest)
      simp only [List.length_cons]
      omega
    · rw [if_neg hc]
      have hr : ('/' : Char) ∈ rest := by
        rcases List.mem_cons.mp h with h1 | h1
        · exact absurd h1.symm hc
        · exact h1
      have h2 := ih hr
      cases hp : splitOnSlash rest with
      | nil => exact absurd hp (splitOnSlash_ne_nil rest)
      | cons p ps =>
        rw [hp] at h2
        simpa using h2

lemma splitOnSlash_getLast (l : List Char) :
    (splitOnSlash l).getLast? =
      some ((l.reverse.takeWhile (fun c => c != '/')).reverse) := by
  induction l with
  | nil => rfl
  | cons c rest ih =>
    have hrev : (c :: rest).reverse = rest.reverse ++ [c] := by simp
    unfold splitOnSlash
    by_cases hc : c = '/'
    · rw [if_pos hc]
      cases hp : splitOnSlash rest with
      | nil => exact absurd hp (splitOnSlash_ne_nil rest)
      | cons p ps =>
        rw [List.getLast?_cons_cons, ← hp, ih, hrev, hc]
        rw [takeWhile_append_single_neg _ _ (by simp) rest.reverse]
    · rw [if_neg hc]
      by_cases hmem : ('/' : Char) ∈ rest
      · cases hp : splitOnSlash rest with
        | nil => exact absurd hp (splitOnSlash_ne_nil rest)
        | cons p ps =>
          have hlen := splitOnSlash_length_two rest hmem
          rw [hp] at hlen
          cases ps with
          | nil => simp at hlen
          | cons q qs =>
            rw [List.getLast?_cons_cons]
            have hih : (splitOnSlash rest).getLast? = (q :: qs).getLast? := by
              rw [hp, List.getLast?_cons_cons]
            rw [← hih, ih, hrev]
            rw [takeWhile_append_stop _ rest.reverse [c]
              ⟨'/', by simpa using hmem, by simp⟩]
      · rw [splitOnSlash_no_slash rest hmem]
        simp only [List.getLast?_singleton]
        rw [hrev]
        have hall : ∀ x ∈ rest.reverse, (fun c => c != '/') x = true := by
          intro x hx
          have : x ∈ rest := by simpa using hx
          simp only [bne_iff_ne, ne_eq]
          intro hxe
          exact hmem (hxe ▸ this)
        rw [List.takeWhile_append_of_pos hall]
        have hcc : (fun c => c != '/') c = true := by simpa using hc
        simp [List.takeWhile_cons, hcc]

/-- C10: `get_executable_name` returns the substring after the last `/` or
`\` separator (the whole string when no separator is present), and its
result never depends on the default executable name: the documented fallback
is unreachable because splitting always yields at least one element. -/
theorem c10_get_executable_name (path d1 d2 : List Char) :
    get_executable_name d1 path = afterLastSep path ∧
      get_executable_name d1 path = get_executable_name d2 path := by
  have key : ∀ d, get_executable_name d path =
      (((path.map sepReplace).reverse.takeWhile (fun c => c != '/')).reverse) := by
    intro d
    unfold get_executable_name
    rw [splitOnSlash_getLast]
    rfl
  have hconv :
      (((path.map sepReplace).reverse.takeWhile (fun c => c != '/')).reverse) =
        afterLastSep path := by
    unfold afterLastSep
    rw [← List.map_reverse, List.takeWhile_map]
    have hpred : ((fun c => c != '/') ∘ sepReplace) =
        (fun c => !(c = '/' || c = '\\')) := by
      funext x
      by_cases h1 : x = '\\'
      · simp [sepReplace, h1]
      · by_cases h2 : x = '/' <;> simp [sepReplace, h1, h2]
    rw [hpred]
    have hid : ∀ x ∈ path.reverse.takeWhile (fun c => !(c = '/' || c = '\\')),
        sepReplace x = x := by
      intro x hx
      have hp := List.mem_takeWhile_imp hx
      simp only [Bool.not_eq_true', Bool.or_eq_false_iff,
        decide_eq_false_iff_not] at hp
      simp [sepReplace, hp.2]
    rw [List.map_congr_left hid]
    simp
  exact ⟨(key d1).trans hconv, (key d1).trans ((key d2).symm)⟩

end YsCompass
